/-
Verification of the virtual-scrolling core (measurement cache, range
calculator, render-window extractor, scroll-position controller).

The TypeScript source is shallowly embedded: JS numbers that only ever hold
pixel offsets/sizes are modelled as `Int`, indices as `Nat`, the `Map`-valued
item-size cache as a function `Int → Option Int`, and the mutable class
instance as an explicit state record `VState`.  Outbound calls to the external
scroll executor (`scrollToFn`) and the change-notification callback
(`onChange`) are modelled as an emitted `Event` list.  `while` loops are
embedded as structurally recursive functions on an explicit iteration bound
that is exact for the loop being modelled (the bound reaches 0 exactly when
the loop's index condition fails).
-/
import Mathlib

namespace Virtual

/-- Scroll alignment: how an item aligns with the container. -/
inductive ScrollAlignment where
  | start
  | center
  | «end»
  | auto
deriving DecidableEq

/-- Scroll behavior: instant ('auto') or smooth. -/
inductive ScrollBehavior where
  | auto
  | smooth
deriving DecidableEq

/-- A virtualized item record: `{key, index, start, end, size, lane}`. -/
structure VirtualItem where
  key : Int
  index : Nat
  start : Int
  «end» : Int
  size : Int
  lane : Nat
deriving DecidableEq

/-- Dimensions of the scroll container. -/
structure Rect where
  width : Int
  height : Int
deriving DecidableEq

/-- The tight render range handed to the range extractor. -/
structure Range where
  startIndex : Int
  endIndex : Int
  overscan : Int
  count : Int
deriving DecidableEq

/-- Dummy item standing for out-of-bounds array accesses that the source
code never performs on the paths we reason about. -/
def ZERO_ITEM : VirtualItem := ⟨0, 0, 0, 0, 0, 0⟩

/-! ## Memoized recomputation pipeline (`memo` in utils) -/

/-- The closure state captured by `memo`: the last dependency tuple and the
last result (`undefined` before the first computation, modelled as `none`). -/
structure MemoState (α β : Type) where
  deps : List α
  result : Option β

/-- One invocation of the function returned by `memo`.  `newDeps` is the value
produced by `getDeps()`; the returned `Bool` records whether the compute
function `fn` was invoked.  Mirrors the source: `depsChanged` is true when the
lengths differ or some element differs (`deps[index] !== dep`, with a missing
`deps[index]` compared as `undefined`, i.e. unequal); when unchanged the
cached `result` is returned as-is (possibly `undefined`). -/
def memoCall {α β : Type} [DecidableEq α] (newDeps : List α) (fn : List α → β)
    (s : MemoState α β) : Option β × MemoState α β × Bool :=
  let depsChanged :=
    (decide (newDeps.length ≠ s.deps.length)) ||
      (List.range newDeps.length).any
        (fun i => decide (s.deps.get? i ≠ newDeps.get? i))
  if depsChanged then
    let r := fn newDeps
    (some r, ⟨newDeps, some r⟩, true)
  else
    (s.result, s, false)

/-! ## Render window extractor (`defaultRangeExtractor`) -/

/-- The `for (let i = start; i <= end; i++) arr.push(i)` loop: `n` is the
exact number of remaining iterations. -/
def rangeList (start : Int) : Nat → List Int
  | 0 => []
  | n + 1 => start :: rangeList (start + 1) n

/-- Default range extractor: indices from `max(startIndex - overscan, 0)` to
`min(endIndex + overscan, count - 1)` inclusive. -/
def defaultRangeExtractor (range : Range) : List Int :=
  let start := max (range.startIndex - range.overscan) 0
  let «end» := min (range.endIndex + range.overscan) (range.count - 1)
  rangeList start («end» + 1 - start).toNat

/-! ## Binary search (`findNearestBinarySearch`) -/

/-- The `while (low <= high)` loop of `findNearestBinarySearch`.  The fuel is
an upper bound on `high + 1 - low`, which strictly decreases each iteration,
so fuel 0 implies the loop guard `low <= high` is false and we take the exit
branch (`low > 0 ? low - 1 : 0`). -/
def fnbsGo (getCurrentValue : Nat → Int) (value : Int) :
    Nat → Nat → Int → Nat
  | 0, low, _ => if 0 < low then low - 1 else 0
  | fuel + 1, low, high =>
    if (low : Int) ≤ high then
      let middle := (low + high.toNat) / 2
      let currentValue := getCurrentValue middle
      if currentValue < value then
        fnbsGo getCurrentValue value fuel (middle + 1) high
      else if value < currentValue then
        fnbsGo getCurrentValue value fuel low ((middle : Int) - 1)
      else
        middle
    else if 0 < low then low - 1 else 0

/-- `findNearestBinarySearch(low, high, getCurrentValue, value)`. -/
def findNearestBinarySearch (low : Nat) (high : Int)
    (getCurrentValue : Nat → Int) (value : Int) : Nat :=
  fnbsGo getCurrentValue value (high + 1 - low).toNat low high

/-! ## Range calculator (`calculateRange`, free function) -/

/-- Single-lane forward expansion:
`while (endIndex < lastIndex && measurements[endIndex].end < bound) endIndex++`.
The fuel is exactly `lastIndex - endIndex`, so fuel 0 coincides with the
guard `endIndex < lastIndex` failing. -/
def expandEndSingle (measurements : List VirtualItem) (bound : Int) :
    Nat → Nat → Nat
  | 0, endIndex => endIndex
  | fuel + 1, endIndex =>
    if (measurements.getD endIndex ZERO_ITEM).«end» < bound then
      expandEndSingle measurements bound fuel (endIndex + 1)
    else endIndex

/-- Multi-lane forward expansion: `while (endIndex < lastIndex &&
endPerLane.some((pos) => pos < bound)) { endPerLane[item.lane] = item.end;
endIndex++ }`.  Fuel is exactly `lastIndex - endIndex`. -/
def expandEndMulti (measurements : List VirtualItem) (bound : Int) :
    Nat → Nat → List Int → Nat
  | 0, endIndex, _ => endIndex
  | fuel + 1, endIndex, endPerLane =>
    if endPerLane.any (fun pos => decide (pos < bound)) then
      expandEndMulti measurements bound fuel (endIndex + 1)
        (endPerLane.set (measurements.getD endIndex ZERO_ITEM).lane
          (measurements.getD endIndex ZERO_ITEM).«end»)
    else endIndex

/-- Multi-lane backward expansion: `while (startIndex >= 0 &&
startPerLane.some((pos) => pos >= scrollOffset)) { startPerLane[item.lane] =
item.start; startIndex-- }`.  Fuel is exactly `startIndex + 1`, so fuel 0
coincides with the guard `startIndex >= 0` failing. -/
def expandStartMulti (measurements : List VirtualItem) (scrollOffset : Int) :
    Nat → Int → List Int → Int
  | 0, startIndex, _ => startIndex
  | fuel + 1, startIndex, startPerLane =>
    if startPerLane.any (fun pos => decide (scrollOffset ≤ pos)) then
      expandStartMulti measurements scrollOffset fuel (startIndex - 1)
        (startPerLane.set (measurements.getD startIndex.toNat ZERO_ITEM).lane
          (measurements.getD startIndex.toNat ZERO_ITEM).start)
    else startIndex

/-- Result of the free `calculateRange` function.  The source uses plain JS
numbers; `startIndex`/`endIndex` are `Int` because the degenerate
`measurements.length <= lanes` branch can return `endIndex = -1` for an empty
sequence. -/
structure CalcRange where
  startIndex : Int
  endIndex : Int
deriving DecidableEq

/-- The free `calculateRange({measurements, outerSize, scrollOffset, lanes})`.
JS `%` on a possibly negative `startIndex` is truncated remainder,
`Int.tmod`. -/
def calculateRange (measurements : List VirtualItem) (outerSize : Int)
    (scrollOffset : Int) (lanes : Nat) : CalcRange :=
  let lastIndex : Int := (measurements.length : Int) - 1
  if measurements.length ≤ lanes then
    ⟨0, lastIndex⟩
  else
    let startIndexBS := findNearestBinarySearch 0 lastIndex
      (fun index => (measurements.getD index ZERO_ITEM).start) scrollOffset
    if lanes = 1 then
      let endIndex := expandEndSingle measurements (scrollOffset + outerSize)
        (lastIndex.toNat - startIndexBS) startIndexBS
      ⟨(startIndexBS : Int), (endIndex : Int)⟩
    else if 1 < lanes then
      let endIndex := expandEndMulti measurements (scrollOffset + outerSize)
        (lastIndex.toNat - startIndexBS) startIndexBS (List.replicate lanes 0)
      let startIndex := expandStartMulti measurements scrollOffset
        (startIndexBS + 1) (startIndexBS : Int)
        (List.replicate lanes (scrollOffset + outerSize))
      let startIndexA := max 0 (startIndex - Int.tmod startIndex (lanes : Int))
      let endIndexA := min lastIndex
        ((endIndex : Int) + ((lanes : Int) - 1 - Int.tmod (endIndex : Int) (lanes : Int)))
      ⟨startIndexA, endIndexA⟩
    else
      ⟨(startIndexBS : Int), (startIndexBS : Int)⟩

/-! ## Virtualizer options and state -/

/-- The resolved options the embedded operations read (`this.options`).
Functions (`estimateSize`, `getItemKey`) are modelled directly; keys are
modelled as `Int` (the default key extractor is the identity on the index). -/
structure Options where
  count : Nat
  paddingStart : Int
  paddingEnd : Int
  scrollMargin : Int
  gap : Int
  lanes : Nat
  estimateSize : Nat → Int
  getItemKey : Nat → Int
  scrollPaddingStart : Int
  scrollPaddingEnd : Int
  horizontal : Bool
  initialOffset : Int
  initialRect : Rect
  initialMeasurementsCache : List VirtualItem
  enabled : Bool

/-- Outbound effects of the controller: a scroll request handed to the
external scroll executor (`scrollToFn(offset, {adjustments, behavior})`) and
a change notification (`onChange(instance, sync)`). -/
inductive Event where
  | scrollRequest (offset : Int) (adjustments : Option Int)
      (behavior : Option ScrollBehavior)
  | notify (sync : Bool)
deriving DecidableEq

/-- Mutable fields of the `Virtualizer` instance that the embedded operations
touch.  `scrollElement`/`targetWindow` model attachment of the external DOM
collaborators; `elementScrollSize` is the `scrollWidth`/`scrollHeight` the
attached scroll element reports. -/
structure VState where
  opts : Options
  measurementsCache : List VirtualItem
  itemSizeCache : Int → Option Int
  pendingMeasuredCacheIndexes : List Nat
  scrollRect : Option Rect
  scrollOffset : Option Int
  scrollAdjustments : Int
  shouldAdjustScrollPositionOnItemSizeChange : Option (VirtualItem → Int → Bool)
  scrollElement : Bool
  elementScrollSize : Int
  targetWindow : Bool
  scrollToIndexTimeoutId : Option Nat

/-- `getSize()`: viewport size along the active axis; lazily initializes
`scrollRect` from `initialRect` (and clears it when disabled). -/
def getSize (s : VState) : Int × VState :=
  if s.opts.enabled = false then
    (0, { s with scrollRect := none })
  else
    let rect := s.scrollRect.getD s.opts.initialRect
    ((if s.opts.horizontal then rect.width else rect.height),
      { s with scrollRect := some rect })

/-- `getScrollOffset()`: current offset; lazily initializes `scrollOffset`
from `initialOffset` (and clears it when disabled). -/
def getScrollOffset (s : VState) : Int × VState :=
  if s.opts.enabled = false then
    (0, { s with scrollOffset := none })
  else
    let off := s.scrollOffset.getD s.opts.initialOffset
    (off, { s with scrollOffset := some off })

/-! ## Measurement cache (`getFurthestMeasurement`, `getMeasurements`) -/

/-- Association-list update with `Map.set` semantics (replace the existing
binding for the key, otherwise append). -/
def mapSet (l : List (Nat × VirtualItem)) (k : Nat) (v : VirtualItem) :
    List (Nat × VirtualItem) :=
  match l with
  | [] => [(k, v)]
  | (k', v') :: rest =>
    if k' = k then (k, v) :: rest else (k', v') :: mapSet rest k v

/-- `Map.get` on the association list. -/
def mapGet (l : List (Nat × VirtualItem)) (k : Nat) : Option VirtualItem :=
  (l.find? (fun p => decide (p.1 = k))).map Prod.snd

/-- `Set.add` on a list of lanes (`furthestMeasurementsFound`). -/
def setAdd (l : List Nat) (k : Nat) : List Nat :=
  if k ∈ l then l else l ++ [k]

/-- The sort comparator of `getFurthestMeasurement`: ascending by `end`,
ties broken by ascending `index`. -/
def endIndexLt (a b : VirtualItem) : Prop :=
  a.«end» < b.«end» ∨ (a.«end» = b.«end» ∧ a.index ≤ b.index)

instance : DecidableRel endIndexLt := fun a b => by
  unfold endIndexLt; infer_instance

/-- The `for (let m = index - 1; m >= 0; m--)` scan of
`getFurthestMeasurement`.  The fuel is `m + 1`: each step examines
`measurements[fuel - 1]`.  Returns the per-lane furthest-measurement map at
loop exit (either `m < 0` or the early `break` once every lane is final). -/
def gfmGo (lanes : Nat) (measurements : List VirtualItem) :
    Nat → List Nat → List (Nat × VirtualItem) → List (Nat × VirtualItem)
  | 0, _, furthestMeasurements => furthestMeasurements
  | m + 1, furthestMeasurementsFound, furthestMeasurements =>
    let measurement := measurements.getD m ZERO_ITEM
    if measurement.lane ∈ furthestMeasurementsFound then
      gfmGo lanes measurements m furthestMeasurementsFound furthestMeasurements
    else
      let previousFurthestMeasurement :=
        mapGet furthestMeasurements measurement.lane
      let furthestMeasurements' :=
        match previousFurthestMeasurement with
        | none => mapSet furthestMeasurements measurement.lane measurement
        | some prev =>
          if prev.«end» < measurement.«end» then
            mapSet furthestMeasurements measurement.lane measurement
          else furthestMeasurements
      let furthestMeasurementsFound' :=
        match previousFurthestMeasurement with
        | none => furthestMeasurementsFound
        | some prev =>
          if measurement.«end» < prev.«end» then
            setAdd furthestMeasurementsFound measurement.lane
          else furthestMeasurementsFound
      if furthestMeasurementsFound'.length = lanes then furthestMeasurements'
      else gfmGo lanes measurements m furthestMeasurementsFound' furthestMeasurements'

/-- `getFurthestMeasurement(measurements, index)`: when every lane has a
resolved candidate, the one with the smallest `end` (ties by smallest
index); otherwise `undefined`. -/
def getFurthestMeasurement (lanes : Nat) (measurements : List VirtualItem)
    (index : Nat) : Option VirtualItem :=
  let furthestMeasurements := gfmGo lanes measurements index [] []
  if furthestMeasurements.length = lanes then
    (List.insertionSort endIndexLt (furthestMeasurements.map Prod.snd)).head?
  else none

/-- The body of the `for (let i = min; i < count; i++)` loop of
`getMeasurements` at `i = acc.length`, producing `measurements[i]`.  In the
source, for a single lane the "furthest measurement" is simply
`measurements[i - 1]` (`undefined` at `i = 0`, i.e. `measurements[-1]`). -/
def nextItem (opts : Options) (itemSizeCache : Int → Option Int)
    (acc : List VirtualItem) : VirtualItem :=
  let i := acc.length
  let key := opts.getItemKey i
  let furthestMeasurement :=
    if opts.lanes = 1 then
      if i = 0 then none else acc.get? (i - 1)
    else getFurthestMeasurement opts.lanes acc i
  let start :=
    match furthestMeasurement with
    | some fm => fm.«end» + opts.gap
    | none => opts.paddingStart + opts.scrollMargin
  let size := (itemSizeCache key).getD (opts.estimateSize i)
  let «end» := start + size
  let lane :=
    match furthestMeasurement with
    | some fm => fm.lane
    | none => i % opts.lanes
  { key := key, index := i, start := start, «end» := «end», size := size,
    lane := lane }

/-- The `for (let i = min; i < count; i++)` loop of `getMeasurements`.
`acc` is the measurement array built so far (`i = acc.length`); the fuel is
exactly `count - i`. -/
def measureGo (opts : Options) (itemSizeCache : Int → Option Int) :
    Nat → List VirtualItem → List VirtualItem
  | 0, acc => acc
  | fuel + 1, acc =>
    measureGo opts itemSizeCache fuel (acc ++ [nextItem opts itemSizeCache acc])

/-- `itemSizeCache.set(item.key, item.size)` for each item of the initial
measurements cache, applied on top of `sizeCache` (later entries win). -/
def seedSizeCache (initial : List VirtualItem) (sizeCache : Int → Option Int) :
    Int → Option Int :=
  fun k =>
    match initial.reverse.find? (fun it => decide (it.key = k)) with
    | some it => some it.size
    | none => sizeCache k

/-- `Math.min(...pendingMeasuredCacheIndexes)` guarded by emptiness: the
recompute start index `min`. -/
def pendingMin (pending : List Nat) : Nat :=
  match pending with
  | [] => 0
  | x :: xs => xs.foldl Nat.min x

/-- The compute function of the memoized `getMeasurements`: returns `[]` when
disabled; otherwise seeds the size cache from `initialMeasurementsCache` when
the measurements cache is empty, keeps the clean prefix
`measurementsCache.slice(0, min)` and recomputes the suffix from
`min = Math.min(...pendingMeasuredCacheIndexes)` (0 when none pending).
The loop index starts at the prefix length, which equals the source's `min`
whenever `min ≤ measurementsCache.length`; pending indexes are always indexes
of existing cache entries, so this always holds on reachable states. -/
def getMeasurements (opts : Options) (itemSizeCache : Int → Option Int)
    (measurementsCache : List VirtualItem) (pending : List Nat) :
    List VirtualItem :=
  if opts.enabled = false then []
  else
    let cache :=
      if measurementsCache.isEmpty then opts.initialMeasurementsCache
      else measurementsCache
    let sizeCache :=
      if measurementsCache.isEmpty then
        seedSizeCache opts.initialMeasurementsCache itemSizeCache
      else itemSizeCache
    let min := pendingMin pending
    let measurements := cache.take min
    measureGo opts sizeCache (opts.count - measurements.length) measurements

/-! ## Scroll position controller -/

/-- `getOffsetForAlignment(toOffset, align, itemSize)`: resolves `auto`,
shifts by alignment, and clamps to `[0, scrollSize - size]`.  `scrollSize` is
the attached element's `scrollWidth`/`scrollHeight`, or 0 with no element.
(`(itemSize - size) / 2` is exact float halving in JS; the claims proved here
never take the `center` branch, where the `Int` model rounds.) -/
def getOffsetForAlignment (s : VState) (toOffset : Int)
    (align : ScrollAlignment) (itemSize : Int) : Int × VState :=
  let (size, s1) := getSize s
  let (scrollOffset, s2) := getScrollOffset s1
  let align' :=
    if align = ScrollAlignment.auto then
      if scrollOffset + size ≤ toOffset then ScrollAlignment.«end»
      else ScrollAlignment.start
    else align
  let toOffset' :=
    if align' = ScrollAlignment.center then toOffset + (itemSize - size) / 2
    else if align' = ScrollAlignment.«end» then toOffset - size
    else toOffset
  let scrollSize := if s2.scrollElement then s2.elementScrollSize else 0
  let maxOffset := scrollSize - size
  (max (min maxOffset toOffset') 0, s2)

/-- `getOffsetForIndex(index, align)`: clamps the index, resolves `auto`
against the viewport shrunk by `scrollPaddingStart/End` (returning the
current offset unchanged when the item already lies strictly inside it),
then delegates to `getOffsetForAlignment`.  `none` when the clamped index has
no cached measurement. -/
def getOffsetForIndex (s : VState) (index : Int) (align : ScrollAlignment) :
    Option (Int × ScrollAlignment) × VState :=
  let index' := max 0 (min index ((s.opts.count : Int) - 1))
  match s.measurementsCache.get? index'.toNat with
  | none => (none, s)
  | some item =>
    let (size, s1) := getSize s
    let (scrollOffset, s2) := getScrollOffset s1
    let alignRes :=
      if align = ScrollAlignment.auto then
        if scrollOffset + size - s.opts.scrollPaddingEnd ≤ item.«end» then
          some ScrollAlignment.«end»
        else if item.start ≤ scrollOffset + s.opts.scrollPaddingStart then
          some ScrollAlignment.start
        else none
      else some align
    match alignRes with
    | none => (some (scrollOffset, ScrollAlignment.auto), s2)
    | some al =>
      let toOffset :=
        if al = ScrollAlignment.«end» then item.«end» + s.opts.scrollPaddingEnd
        else item.start - s.opts.scrollPaddingStart
      let (r, s3) := getOffsetForAlignment s2 toOffset al item.size
      (some (r, al), s3)

/-- `cancelScrollToIndex()`: clears the pending deferred index-scroll timer
(only when one is pending and a target window is attached). -/
def cancelScrollToIndex (s : VState) : VState :=
  if s.scrollToIndexTimeoutId ≠ none ∧ s.targetWindow then
    { s with scrollToIndexTimeoutId := none }
  else s

/-- `scrollToOffset(toOffset, {align = 'start', behavior})`: cancels any
deferred index scroll, resolves the target through `getOffsetForAlignment`,
and issues the scroll request with `adjustments: undefined`. -/
def scrollToOffset (s : VState) (toOffset : Int) (align : ScrollAlignment)
    (behavior : Option ScrollBehavior) : VState × List Event :=
  let s1 := cancelScrollToIndex s
  let (offset, s2) := getOffsetForAlignment s1 toOffset align 0
  (s2, [Event.scrollRequest offset none behavior])

/-- `scrollBy(delta, {behavior})`: cancels any deferred index scroll and
issues a scroll request at `getScrollOffset() + delta` directly (no alignment
resolution, no clamping), with `adjustments: undefined`. -/
def scrollBy (s : VState) (delta : Int) (behavior : Option ScrollBehavior) :
    VState × List Event :=
  let s1 := cancelScrollToIndex s
  let (offset, s2) := getScrollOffset s1
  (s2, [Event.scrollRequest (offset + delta) none behavior])

/-- `resizeItem(index, size)`: no-op when the index has no cached
measurement; otherwise, when the size changed, optionally compensates the
scroll position (override predicate if installed, else
`item.start < getScrollOffset() + scrollAdjustments`) by bumping
`scrollAdjustments` by the delta and re-issuing a scroll request at the
current offset, then records the dirty index, updates the item-size map and
emits a non-synchronous change notification. -/
def resizeItem (s : VState) (index : Nat) (size : Int) :
    VState × List Event :=
  match s.measurementsCache.get? index with
  | none => (s, [])
  | some item =>
    let itemSize := (s.itemSizeCache item.key).getD item.size
    let delta := size - itemSize
    if delta ≠ 0 then
      let (cond, s1) :=
        match s.shouldAdjustScrollPositionOnItemSizeChange with
        | some f => (f item delta, s)
        | none =>
          let (off, s') := getScrollOffset s
          (decide (item.start < off + s'.scrollAdjustments), s')
      let (s2, scrollEvents) :=
        if cond then
          let (off2, s2a) := getScrollOffset s1
          let s2b := { s2a with
            scrollAdjustments := s2a.scrollAdjustments + delta }
          (s2b, [Event.scrollRequest off2 (some s2b.scrollAdjustments) none])
        else (s1, [])
      let s3 := { s2 with
        pendingMeasuredCacheIndexes :=
          s2.pendingMeasuredCacheIndexes ++ [item.index],
        itemSizeCache :=
          fun k => if k = item.key then some size else s2.itemSizeCache k }
      (s3, scrollEvents ++ [Event.notify false])
    else (s, [])

/-! ## Concrete inputs used by the witnesses -/

/-- A small concrete options record for evaluating the measurement cache. -/
def WOPTS : Options :=
  { count := 3, paddingStart := 2, paddingEnd := 0, scrollMargin := 3,
    gap := 5, lanes := 1, estimateSize := fun _ => 10,
    getItemKey := fun i => (i : Int), scrollPaddingStart := 0,
    scrollPaddingEnd := 0, horizontal := false, initialOffset := 0,
    initialRect := ⟨0, 0⟩, initialMeasurementsCache := [], enabled := true }

/-- A concrete controller state: two measured items, a 100px viewport,
scrolled to offset 200, scroll element attached with 1000px of content. -/
def WSTATE : VState :=
  { opts :=
      { count := 2, paddingStart := 0, paddingEnd := 0, scrollMargin := 0,
        gap := 0, lanes := 1, estimateSize := fun _ => 50,
        getItemKey := fun i => (i : Int), scrollPaddingStart := 4,
        scrollPaddingEnd := 6, horizontal := false, initialOffset := 0,
        initialRect := ⟨0, 100⟩, initialMeasurementsCache := [],
        enabled := true },
    measurementsCache :=
      [⟨0, 0, 0, 50, 50, 0⟩, ⟨1, 1, 230, 280, 50, 0⟩],
    itemSizeCache := fun k => if k = 0 then some 50 else none,
    pendingMeasuredCacheIndexes := [],
    scrollRect := some ⟨0, 100⟩,
    scrollOffset := some 200,
    scrollAdjustments := 0,
    shouldAdjustScrollPositionOnItemSizeChange := none,
    scrollElement := true,
    elementScrollSize := 1000,
    targetWindow := true,
    scrollToIndexTimeoutId := none }

/-! ## C9: memo with initialDeps equal to the first dependency tuple -/

/-- C9: if the first invocation's dependency tuple is element-wise identical
to `initialDeps`, the compute function is never invoked (third component
`false`) and the memoized function returns `undefined` (`none`) instead of a
computed result. -/
theorem memo_initialDeps_returns_none {α β : Type} [DecidableEq α]
    (initialDeps newDeps : List α) (fn : List α → β)
    (h : newDeps = initialDeps) :
    memoCall newDeps fn ⟨initialDeps, none⟩ =
      (none, ⟨initialDeps, none⟩, false) := by
  subst h
  simp [memoCall]

/-- Witness for C9 at a concrete dependency tuple. -/
theorem memo_initialDeps_returns_none_witness :
    memoCall [(1 : Int), 2] (fun _ => (99 : Int)) ⟨[1, 2], none⟩ =
      (none, ⟨[1, 2], none⟩, false) :=
  memo_initialDeps_returns_none [1, 2] [1, 2] (fun _ => 99) rfl

/-! ## C10: resizeItem at an index with no cached measurement -/

/-- C10: `resizeItem` at an index outside the cached measurement sequence
leaves the whole state unchanged and emits no notification or scroll
request. -/
theorem resizeItem_out_of_bounds_noop (s : VState) (index : Nat) (size : Int)
    (h : s.measurementsCache.length ≤ index) :
    resizeItem s index size = (s, []) := by
  unfold resizeItem
  rw [List.get?_eq_none.mpr h]

/-- Witness for C10: index 5 with a 2-item cache. -/
theorem resizeItem_out_of_bounds_noop_witness :
    resizeItem WSTATE 5 80 = (WSTATE, []) :=
  resizeItem_out_of_bounds_noop WSTATE 5 80 (by decide)

/-! ## C8: default range extractor -/

lemma mem_rangeList (x : Int) :
    ∀ (n : Nat) (start : Int),
      x ∈ rangeList start n ↔ start ≤ x ∧ x < start + n
  | 0, start => by simp [rangeList]
  | n + 1, start => by
    rw [rangeList]
    simp only [List.mem_cons, mem_rangeList x n (start + 1)]
    constructor
    · rintro (rfl | ⟨h1, h2⟩) <;> constructor <;> omega
    · rintro ⟨h1, h2⟩
      rcases eq_or_lt_of_le h1 with rfl | h1'
      · exact Or.inl rfl
      · exact Or.inr ⟨by omega, by omega⟩

lemma chain'_rangeList :
    ∀ (n : Nat) (start : Int),
      List.Chain' (fun a b => b = a + 1) (rangeList start n)
  | 0, _ => List.chain'_nil
  | n + 1, start => by
    rw [rangeList, List.chain'_cons']
    refine ⟨?_, chain'_rangeList n (start + 1)⟩
    intro b hb
    cases n with
    | zero => simp [rangeList] at hb
    | succ m => simp [rangeList] at hb; omega

lemma pairwise_rangeList :
    ∀ (n : Nat) (start : Int),
      List.Pairwise (fun a b : Int => a < b) (rangeList start n)
  | 0, _ => List.Pairwise.nil
  | n + 1, start => by
    rw [rangeList]
    refine List.Pairwise.cons ?_ (pairwise_rangeList n (start + 1))
    intro b hb
    rw [mem_rangeList] at hb
    omega

/-- C8: for `0 ≤ startIndex ≤ endIndex ≤ count - 1` and `overscan ≥ 0`, the
default extractor returns exactly the contiguous ascending duplicate-free
index sequence from `max(startIndex - overscan, 0)` to
`min(endIndex + overscan, count - 1)` inclusive. -/
theorem defaultRangeExtractor_spec (r : Range)
    (h0 : 0 ≤ r.startIndex) (h1 : r.startIndex ≤ r.endIndex)
    (h2 : r.endIndex ≤ r.count - 1) (h3 : 0 ≤ r.overscan) :
    (∀ x : Int, x ∈ defaultRangeExtractor r ↔
      max (r.startIndex - r.overscan) 0 ≤ x ∧
        x ≤ min (r.endIndex + r.overscan) (r.count - 1)) ∧
    List.Chain' (fun a b => b = a + 1) (defaultRangeExtractor r) ∧
    List.Pairwise (fun a b : Int => a < b) (defaultRangeExtractor r) := by
  unfold defaultRangeExtractor
  refine ⟨?_, chain'_rangeList _ _, pairwise_rangeList _ _⟩
  intro x
  rw [mem_rangeList]
  constructor <;> rintro ⟨ha, hb⟩ <;> exact ⟨by omega, by omega⟩

/-- Witness for C8: Scenario A's tight range `{0, 9}` with `overscan = 1`
and `count = 1000`. -/
theorem defaultRangeExtractor_spec_witness :
    (∀ x : Int, x ∈ defaultRangeExtractor ⟨0, 9, 1, 1000⟩ ↔
      max ((0 : Int) - 1) 0 ≤ x ∧ x ≤ min ((9 : Int) + 1) (1000 - 1)) ∧
    List.Chain' (fun a b => b = a + 1) (defaultRangeExtractor ⟨0, 9, 1, 1000⟩) ∧
    List.Pairwise (fun a b : Int => a < b)
      (defaultRangeExtractor ⟨0, 9, 1, 1000⟩) :=
  defaultRangeExtractor_spec ⟨0, 9, 1, 1000⟩ (by decide) (by decide)
    (by decide) (by decide)

/-! ## C1: `end = start + size` for every computed item -/

lemma measureGo_inv (opts : Options) (sizeCache : Int → Option Int) :
    ∀ (n : Nat) (acc : List VirtualItem),
      (∀ it ∈ acc, it.«end» = it.start + it.size) →
      ∀ it ∈ measureGo opts sizeCache n acc, it.«end» = it.start + it.size
  | 0, acc, h => by
    rw [measureGo]; exact h
  | n + 1, acc, h => by
    rw [measureGo]
    refine measureGo_inv opts sizeCache n _ ?_
    intro it hit
    rcases List.mem_append.mp hit with h1 | h2
    · exact h it h1
    · rw [List.mem_singleton] at h2
      subst h2
      rfl

/-- C1: every item of a measurement sequence produced by `getMeasurements`
satisfies `end = start + size`, given that the retained prefix (previous
measurements cache / initial measurements cache) already satisfies it; the
freshly computed items satisfy it by construction. -/
theorem getMeasurements_end_eq_start_add_size (opts : Options)
    (sizeCache : Int → Option Int) (cache : List VirtualItem)
    (pending : List Nat)
    (hcache : ∀ it ∈ cache, it.«end» = it.start + it.size)
    (hinit : ∀ it ∈ opts.initialMeasurementsCache,
      it.«end» = it.start + it.size) :
    ∀ it ∈ getMeasurements opts sizeCache cache pending,
      it.«end» = it.start + it.size := by
  unfold getMeasurements
  split
  · simp
  · refine measureGo_inv _ _ _ _ ?_
    intro it hit
    split at hit
    · exact hinit it (List.take_subset _ _ hit)
    · exact hcache it (List.take_subset _ _ hit)

/-- Witness for C1 at a concrete cache and pending set: the freshly computed
item 2 of the recomputation belongs to the output and satisfies the
invariant. -/
theorem getMeasurements_end_eq_start_add_size_witness :
    (⟨2, 2, 45, 55, 10, 0⟩ : VirtualItem) ∈
      getMeasurements WOPTS (fun k => if k = 0 then some 20 else none)
        [⟨0, 0, 5, 25, 20, 0⟩, ⟨1, 1, 30, 40, 10, 0⟩] [1] ∧
    (⟨2, 2, 45, 55, 10, 0⟩ : VirtualItem).«end» =
      (⟨2, 2, 45, 55, 10, 0⟩ : VirtualItem).start +
        (⟨2, 2, 45, 55, 10, 0⟩ : VirtualItem).size :=
  ⟨by decide,
    getMeasurements_end_eq_start_add_size WOPTS
      (fun k => if k = 0 then some 20 else none)
      [⟨0, 0, 5, 25, 20, 0⟩, ⟨1, 1, 30, 40, 10, 0⟩] [1]
      (by decide) (by decide) ⟨2, 2, 45, 55, 10, 0⟩ (by decide)⟩

/-! ## C3: single-lane chaining of starts -/

lemma measureGo_length (opts : Options) (sizeCache : Int → Option Int) :
    ∀ (n : Nat) (acc : List VirtualItem),
      (measureGo opts sizeCache n acc).length = acc.length + n
  | 0, acc => by rw [measureGo]; omega
  | n + 1, acc => by
    rw [measureGo, measureGo_length opts sizeCache n]
    simp
    omega

lemma measureGo_getD_preserve (opts : Options) (sizeCache : Int → Option Int) :
    ∀ (n : Nat) (acc : List VirtualItem) (k : Nat), k < acc.length →
      (measureGo opts sizeCache n acc).getD k ZERO_ITEM = acc.getD k ZERO_ITEM
  | 0, acc, k, _ => by rw [measureGo]
  | n + 1, acc, k, hk => by
    rw [measureGo]
    rw [measureGo_getD_preserve opts sizeCache n _ k (by simp; omega)]
    exact List.getD_append _ _ _ _ hk

/-- The start of the item the single-lane loop body builds: the previous
item's end plus the gap, or `paddingStart + scrollMargin` for item 0. -/
lemma nextItem_start_single (opts : Options) (sizeCache : Int → Option Int)
    (hl : opts.lanes = 1) (acc : List VirtualItem) :
    (nextItem opts sizeCache acc).start =
      if acc.length = 0 then opts.paddingStart + opts.scrollMargin
      else (acc.getD (acc.length - 1) ZERO_ITEM).«end» + opts.gap := by
  unfold nextItem
  by_cases h0 : acc.length = 0
  · simp [hl, h0]
  · have hlt : acc.length - 1 < acc.length := by omega
    simp [hl, h0, List.getElem?_eq_getElem hlt]

lemma measureGo_chain (opts : Options) (sizeCache : Int → Option Int)
    (hl : opts.lanes = 1) :
    ∀ (n : Nat) (acc : List VirtualItem) (i : Nat),
      acc.length ≤ i → i < acc.length + n →
      ((i = 0 →
        ((measureGo opts sizeCache n acc).getD 0 ZERO_ITEM).start =
          opts.paddingStart + opts.scrollMargin) ∧
       (0 < i →
        ((measureGo opts sizeCache n acc).getD i ZERO_ITEM).start =
          ((measureGo opts sizeCache n acc).getD (i - 1) ZERO_ITEM).«end» +
            opts.gap))
  | 0, acc, i, hle, hlt => absurd hlt (by omega)
  | n + 1, acc, i, hle, hlt => by
    rw [measureGo]
    rcases eq_or_lt_of_le hle with heq | hlt'
    · -- the item built this iteration is the one at position `i`
      have hpres : ∀ k, k < acc.length + 1 →
          (measureGo opts sizeCache n
              (acc ++ [nextItem opts sizeCache acc])).getD k ZERO_ITEM
            = (acc ++ [nextItem opts sizeCache acc]).getD k ZERO_ITEM :=
        fun k hk =>
          measureGo_getD_preserve opts sizeCache n _ k (by simp; omega)
      have hitem : (measureGo opts sizeCache n
            (acc ++ [nextItem opts sizeCache acc])).getD i ZERO_ITEM
          = nextItem opts sizeCache acc := by
        rw [hpres i (by omega), ← heq, List.getD_eq_get _ _ (by simp),
          List.get_append_right] <;> simp
      constructor
      · intro hi0
        have hacc0 : acc.length = 0 := by omega
        rw [show (0 : Nat) = i from hi0.symm, hitem,
          nextItem_start_single opts sizeCache hl, if_pos hacc0]
      · intro hipos
        have haccpos : acc.length = i := heq
        rw [hitem, nextItem_start_single opts sizeCache hl,
          if_neg (by omega), haccpos,
          hpres (i - 1) (by omega), List.getD_append _ _ _ _ (by omega)]
    · exact measureGo_chain opts sizeCache hl n
        (acc ++ [nextItem opts sizeCache acc]) i (by simp; omega)
        (by simp; omega)


/-- C3: in a settled single-lane measurement sequence (full recompute,
nothing pending), item 0 starts at `paddingStart + scrollMargin` and every
later item starts at the previous item's end plus the gap. -/
theorem getMeasurements_single_lane_chain (opts : Options)
    (sizeCache : Int → Option Int) (cache : List VirtualItem)
    (hl : opts.lanes = 1) (hen : opts.enabled = true) :
    (0 < opts.count →
      ((getMeasurements opts sizeCache cache []).getD 0 ZERO_ITEM).start =
        opts.paddingStart + opts.scrollMargin) ∧
    ∀ i : Nat, 0 < i → i < opts.count →
      ((getMeasurements opts sizeCache cache []).getD i ZERO_ITEM).start =
        ((getMeasurements opts sizeCache cache []).getD (i - 1)
            ZERO_ITEM).«end» + opts.gap := by
  have hms : getMeasurements opts sizeCache cache [] = measureGo opts
      (if cache.isEmpty then
        seedSizeCache opts.initialMeasurementsCache sizeCache
       else sizeCache) opts.count [] := by
    simp [getMeasurements, hen, pendingMin]
  rw [hms]
  constructor
  · intro hc
    exact (measureGo_chain opts _ hl opts.count [] 0 (Nat.zero_le 0)
      (by simpa using hc)).1 rfl
  · intro i hi0 hic
    exact (measureGo_chain opts _ hl opts.count [] i (Nat.zero_le i)
      (by simpa using hic)).2 hi0

/-- Witness for C3 at `count = 3`, `gap = 5`, `paddingStart = 2`,
`scrollMargin = 3`. -/
theorem getMeasurements_single_lane_chain_witness :
    (0 < WOPTS.count →
      ((getMeasurements WOPTS (fun _ => none) [] []).getD 0 ZERO_ITEM).start =
        WOPTS.paddingStart + WOPTS.scrollMargin) ∧
    ∀ i : Nat, 0 < i → i < WOPTS.count →
      ((getMeasurements WOPTS (fun _ => none) [] []).getD i ZERO_ITEM).start =
        ((getMeasurements WOPTS (fun _ => none) [] []).getD (i - 1)
            ZERO_ITEM).«end» + WOPTS.gap :=
  getMeasurements_single_lane_chain WOPTS (fun _ => none) [] rfl rfl

/-! ## C4: resize-triggered scroll compensation -/

/-- C4: when the resized item exists, the new size differs from the cached
size, no override predicate is installed and the item's start lies before
`currentOffset + scrollAdjustments`, `resizeItem` bumps `scrollAdjustments`
by the delta and issues a scroll request at the current offset carrying the
accumulated adjustments (followed by the non-synchronous change
notification). -/
theorem resizeItem_adjusts_scroll (s : VState) (index : Nat) (size : Int)
    (item : VirtualItem)
    (hitem : s.measurementsCache.get? index = some item)
    (hover : s.shouldAdjustScrollPositionOnItemSizeChange = none)
    (hen : s.opts.enabled = true)
    (hdelta : size - (s.itemSizeCache item.key).getD item.size ≠ 0)
    (hcond : item.start <
      s.scrollOffset.getD s.opts.initialOffset + s.scrollAdjustments) :
    (resizeItem s index size).1.scrollAdjustments =
      s.scrollAdjustments +
        (size - (s.itemSizeCache item.key).getD item.size) ∧
    (resizeItem s index size).2 =
      [Event.scrollRequest (s.scrollOffset.getD s.opts.initialOffset)
        (some (s.scrollAdjustments +
          (size - (s.itemSizeCache item.key).getD item.size))) none,
       Event.notify false] := by
  unfold resizeItem
  rw [hitem]
  simp [hover, getScrollOffset, hen, hdelta, hcond]

/-- Witness for C4, Scenario C: resizing the off-screen item 0 from the
cached 50px to 80px while scrolled to offset 200 with no prior adjustments
bumps `scrollAdjustments` by 30 and issues a scroll request for offset 200
with adjustments 30. -/
theorem resizeItem_adjusts_scroll_witness :
    (resizeItem WSTATE 0 80).1.scrollAdjustments =
      WSTATE.scrollAdjustments +
        (80 - (WSTATE.itemSizeCache (0 : Int)).getD 50) ∧
    (resizeItem WSTATE 0 80).2 =
      [Event.scrollRequest (WSTATE.scrollOffset.getD 0)
        (some (WSTATE.scrollAdjustments +
          (80 - (WSTATE.itemSizeCache (0 : Int)).getD 50))) none,
       Event.notify false] :=
  resizeItem_adjusts_scroll WSTATE 0 80 ⟨0, 0, 0, 50, 50, 0⟩ rfl rfl rfl
    (by decide) (by decide)

/-! ## C6: scrollBy versus scrollToOffset -/

/-- Counterexample to C6 as stated: at the concrete state `WSTATE`
(offset 200, 100px viewport, 1000px content), `scrollBy(-250)` issues a
scroll request at `200 - 250 = -50`, while
`scrollToOffset(currentOffset - 250, {align:'start'})` clamps the target
through `getOffsetForAlignment` to `[0, scrollSize - size]` and issues a
request at `0` — the two requests differ. -/
theorem scrollBy_ne_scrollToOffset_counterexample :
    (scrollBy WSTATE (-250) none).2 ≠
      (scrollToOffset WSTATE
        (WSTATE.scrollOffset.getD WSTATE.opts.initialOffset + (-250))
        ScrollAlignment.start none).2 := by
  decide

/-- C6 (amended): `scrollBy(delta, {behavior})` issues the same scroll
request as `scrollToOffset(currentOffset + delta, {align:'start', behavior})`
whenever `currentOffset + delta` already lies within the container clamp
range `[0, scrollSize - viewportSize]`, so the clamp applied by
`scrollToOffset` (and skipped by `scrollBy`) is the identity. -/
theorem scrollBy_eq_scrollToOffset_within_clamp (s : VState) (delta : Int)
    (behavior : Option ScrollBehavior)
    (hen : s.opts.enabled = true)
    (h0 : 0 ≤ s.scrollOffset.getD s.opts.initialOffset + delta)
    (h1 : s.scrollOffset.getD s.opts.initialOffset + delta ≤
      (if s.scrollElement then s.elementScrollSize else 0) -
        (if s.opts.horizontal then (s.scrollRect.getD s.opts.initialRect).width
         else (s.scrollRect.getD s.opts.initialRect).height)) :
    (scrollBy s delta behavior).2 =
      (scrollToOffset s (s.scrollOffset.getD s.opts.initialOffset + delta)
        ScrollAlignment.start behavior).2 := by
  unfold scrollBy scrollToOffset getOffsetForAlignment getSize getScrollOffset
    cancelScrollToIndex
  split <;> simp [hen] <;> omega

/-- Witness for the amended C6: at `WSTATE`, scrolling by `-10` lands on
`190 ∈ [0, 900]` and both operations issue the same request. -/
theorem scrollBy_eq_scrollToOffset_within_clamp_witness :
    (scrollBy WSTATE (-10) none).2 =
      (scrollToOffset WSTATE
        (WSTATE.scrollOffset.getD WSTATE.opts.initialOffset + (-10))
        ScrollAlignment.start none).2 :=
  scrollBy_eq_scrollToOffset_within_clamp WSTATE (-10) none rfl
    (by decide) (by decide)

/-! ## C5: floor semantics of the binary search -/

/-- Exit branch of the binary-search loop (`low > high`): with the scanned
invariants, `low - 1` (or 0) is the floor index. -/
lemma fnbsExit_spec (getV : Nat → Int) (value : Int) (n : Nat) (hn : 0 < n)
    (low : Nat) (high : Int)
    (hhigh : high < (n : Int))
    (hlh : (low : Int) = high + 1)
    (hlow : ∀ i, i < low → getV i < value)
    (hhi : ∀ i : Nat, high < (i : Int) → i < n → value < getV i) :
    (if 0 < low then low - 1 else 0) < n ∧
    ((∃ i, i < n ∧ getV i ≤ value) →
      getV (if 0 < low then low - 1 else 0) ≤ value ∧
      ∀ i, i < n → getV i ≤ value → i ≤ (if 0 < low then low - 1 else 0)) ∧
    ((∀ i, i < n → value < getV i) →
      (if 0 < low then low - 1 else 0) = 0) := by
  by_cases h0 : 0 < low
  · rw [if_pos h0]
    refine ⟨by omega, ?_, ?_⟩
    · intro _
      refine ⟨le_of_lt (hlow (low - 1) (by omega)), ?_⟩
      intro i hi hle
      by_contra hgt
      have hv := hhi i (by omega) hi
      omega
    · intro hall
      have h1 := hall (low - 1) (by omega)
      have h2 := hlow (low - 1) (by omega)
      omega
  · rw [if_neg h0]
    have hall : ∀ i, i < n → value < getV i := fun i hi =>
      hhi i (by omega) hi
    refine ⟨hn, ?_, fun _ => rfl⟩
    rintro ⟨i, hi, hle⟩
    have := hall i hi
    omega

/-- Loop invariant of `fnbsGo`: everything left of `low` is `< value`,
everything right of `high` is `> value`, the fuel bounds the remaining span,
and no exact match exists; then the loop returns the greatest index whose
value is `≤ value`, or 0 when every value is `> value`. -/
lemma fnbsGo_spec (getV : Nat → Int) (value : Int) (n : Nat) (hn : 0 < n)
    (hsorted : ∀ i, i < n → ∀ j, j < n → i ≤ j → getV i ≤ getV j)
    (hnm : ∀ i, i < n → getV i ≠ value) :
    ∀ (fuel : Nat) (low : Nat) (high : Int),
      high + 1 - (low : Int) ≤ (fuel : Int) →
      high < (n : Int) →
      (low : Int) ≤ high + 1 →
      (∀ i, i < low → getV i < value) →
      (∀ i : Nat, high < (i : Int) → i < n → value < getV i) →
      (fnbsGo getV value fuel low high < n ∧
        ((∃ i, i < n ∧ getV i ≤ value) →
          getV (fnbsGo getV value fuel low high) ≤ value ∧
          ∀ i, i < n → getV i ≤ value →
            i ≤ fnbsGo getV value fuel low high) ∧
        ((∀ i, i < n → value < getV i) →
          fnbsGo getV value fuel low high = 0)) := by
  intro fuel
  induction fuel with
  | zero =>
    intro low high hfuel hhigh hlh hlow hhi
    rw [fnbsGo]
    exact fnbsExit_spec getV value n hn low high hhigh (by omega) hlow hhi
  | succ fuel ih =>
    intro low high hfuel hhigh hlh hlow hhi
    rw [fnbsGo]
    by_cases hcase : (low : Int) ≤ high
    · rw [if_pos hcase]
      have htn : high.toNat = high := Int.toNat_of_nonneg (by omega)
      have hml : low ≤ (low + high.toNat) / 2 := by omega
      have hmh : (low + high.toNat) / 2 ≤ high.toNat := by omega
      set middle := (low + high.toNat) / 2 with hmid
      have hmn : middle < n := by omega
      rcases lt_trichotomy (getV middle) value with hlt | heq | hgt
      · rw [if_pos hlt]
        refine ih (middle + 1) high (by omega) hhigh (by omega) ?_ hhi
        intro i hi
        exact lt_of_le_of_lt
          (hsorted i (by omega) middle hmn (by omega)) hlt
      · exact absurd heq (hnm middle hmn)
      · rw [if_neg (by omega), if_pos hgt]
        refine ih low ((middle : Int) - 1) (by omega) (by omega) (by omega)
          hlow ?_
        intro i hi hin
        exact lt_of_lt_of_le hgt (hsorted middle hmn i hin (by omega))
    · rw [if_neg hcase]
      exact fnbsExit_spec getV value n hn low high hhigh (by omega) hlow hhi

/-- C5: on a sorted value sequence of length `n > 0` with no exact match,
`findNearestBinarySearch(0, n - 1, getV, value)` returns an in-range index
that is the highest one whose value is `≤ value` when one exists, and 0 when
the target is below every value. -/
theorem findNearestBinarySearch_floor (getV : Nat → Int) (value : Int)
    (n : Nat) (hn : 0 < n)
    (hsorted : ∀ i, i < n → ∀ j, j < n → i ≤ j → getV i ≤ getV j)
    (hnm : ∀ i, i < n → getV i ≠ value) :
    findNearestBinarySearch 0 ((n : Int) - 1) getV value < n ∧
    ((∃ i, i < n ∧ getV i ≤ value) →
      getV (findNearestBinarySearch 0 ((n : Int) - 1) getV value) ≤ value ∧
      ∀ i, i < n → getV i ≤ value →
        i ≤ findNearestBinarySearch 0 ((n : Int) - 1) getV value) ∧
    ((∀ i, i < n → value < getV i) →
      findNearestBinarySearch 0 ((n : Int) - 1) getV value = 0) := by
  unfold findNearestBinarySearch
  refine fnbsGo_spec getV value n hn hsorted hnm _ 0 ((n : Int) - 1)
    (by omega) (by omega) (by omega) (by omega) (by omega)

/-- Witness for C5: sorted starts `[0, 10, 20, 30]`; querying 15 yields
index 1, querying 5 yields index 0, querying -1 yields index 0, and the
floor theorem applies at target 15. -/
theorem findNearestBinarySearch_floor_witness :
    findNearestBinarySearch 0 3
      (fun i => [(0 : Int), 10, 20, 30].getD i 0) 15 = 1 ∧
    findNearestBinarySearch 0 3
      (fun i => [(0 : Int), 10, 20, 30].getD i 0) 5 = 0 ∧
    findNearestBinarySearch 0 3
      (fun i => [(0 : Int), 10, 20, 30].getD i 0) (-1) = 0 ∧
    (findNearestBinarySearch 0 ((4 : Int) - 1)
        (fun i => [(0 : Int), 10, 20, 30].getD i 0) 15 < 4 ∧
      ((∃ i, i < 4 ∧ [(0 : Int), 10, 20, 30].getD i 0 ≤ 15) →
        [(0 : Int), 10, 20, 30].getD
          (findNearestBinarySearch 0 ((4 : Int) - 1)
            (fun i => [(0 : Int), 10, 20, 30].getD i 0) 15) 0 ≤ 15 ∧
        ∀ i, i < 4 → [(0 : Int), 10, 20, 30].getD i 0 ≤ 15 →
          i ≤ findNearestBinarySearch 0 ((4 : Int) - 1)
            (fun i => [(0 : Int), 10, 20, 30].getD i 0) 15) ∧
      ((∀ i, i < 4 → (15 : Int) < [(0 : Int), 10, 20, 30].getD i 0) →
        findNearestBinarySearch 0 ((4 : Int) - 1)
          (fun i => [(0 : Int), 10, 20, 30].getD i 0) 15 = 0)) :=
  ⟨by decide, by decide, by decide,
    findNearestBinarySearch_floor (fun i => [(0 : Int), 10, 20, 30].getD i 0)
      15 4 (by decide) (by decide) (by decide)⟩

/-! ## C2: bounds of `calculateRange` -/

/-- The binary search never returns an index beyond `high`. -/
lemma fnbsGo_le (getV : Nat → Int) (value : Int) :
    ∀ (fuel low : Nat) (high : Int), (low : Int) ≤ high + 1 →
      fnbsGo getV value fuel low high ≤ high.toNat := by
  intro fuel
  induction fuel with
  | zero =>
    intro low high hlh
    rw [fnbsGo]
    split <;> omega
  | succ fuel ih =>
    intro low high hlh
    rw [fnbsGo]
    by_cases hcase : (low : Int) ≤ high
    · rw [if_pos hcase]
      have htn : high.toNat = high := Int.toNat_of_nonneg (by omega)
      set middle := (low + high.toNat) / 2 with hmid
      have hm1 : low ≤ middle := by omega
      have hm2 : middle ≤ high.toNat := by omega
      rcases lt_trichotomy (getV middle) value with hlt | heq | hgt
      · rw [if_pos hlt]
        exact ih (middle + 1) high (by omega)
      · rw [if_neg (by omega), if_neg (by omega)]
        omega
      · rw [if_neg (by omega), if_pos hgt]
        have := ih low ((middle : Int) - 1) (by omega)
        omega
    · rw [if_neg hcase]
      split <;> omega

lemma findNearestBinarySearch_le (low : Nat) (high : Int) (getV : Nat → Int)
    (value : Int) (h : (low : Int) ≤ high + 1) :
    findNearestBinarySearch low high getV value ≤ high.toNat :=
  fnbsGo_le getV value _ low high h

lemma expandEndSingle_bounds (m : List VirtualItem) (b : Int) :
    ∀ (fuel e : Nat), e ≤ expandEndSingle m b fuel e ∧
      expandEndSingle m b fuel e ≤ e + fuel := by
  intro fuel
  induction fuel with
  | zero => intro e; rw [expandEndSingle]; omega
  | succ fuel ih =>
    intro e
    rw [expandEndSingle]
    split
    · have := ih (e + 1)
      omega
    · omega

lemma expandEndMulti_bounds (m : List VirtualItem) (b : Int) :
    ∀ (fuel e : Nat) (endPerLane : List Int),
      e ≤ expandEndMulti m b fuel e endPerLane ∧
      expandEndMulti m b fuel e endPerLane ≤ e + fuel := by
  intro fuel
  induction fuel with
  | zero => intro e arr; rw [expandEndMulti]; omega
  | succ fuel ih =>
    intro e arr
    rw [expandEndMulti]
    split
    · have := ih (e + 1) (arr.set (m.getD e ZERO_ITEM).lane
        (m.getD e ZERO_ITEM).«end»)
      omega
    · omega

lemma expandStartMulti_bounds (m : List VirtualItem) (so : Int) :
    ∀ (fuel : Nat) (st : Int) (startPerLane : List Int),
      st - fuel ≤ expandStartMulti m so fuel st startPerLane ∧
      expandStartMulti m so fuel st startPerLane ≤ st := by
  intro fuel
  induction fuel with
  | zero => intro st arr; rw [expandStartMulti]; omega
  | succ fuel ih =>
    intro st arr
    rw [expandStartMulti]
    split
    · have := ih (st - 1) (arr.set (m.getD st.toNat ZERO_ITEM).lane
        (m.getD st.toNat ZERO_ITEM).start)
      omega
    · omega

/-- JS `-1 % lanes` is `-1` for `lanes > 1` (remainder takes the dividend's
sign). -/
lemma tmod_neg_one (lanes : Nat) (h : 1 < lanes) :
    Int.tmod (-1) (lanes : Int) = -1 := by
  show Int.tmod (Int.negSucc 0) (Int.ofNat lanes) = -1
  show -(Int.ofNat (Nat.succ 0 % lanes)) = -1
  rw [Nat.mod_eq_of_lt h]
  rfl

/-- C2: with a nonempty measurement sequence and a positive viewport,
`calculateRange` returns `0 ≤ startIndex ≤ endIndex ≤ count - 1` (where
`count` is the length of the measurement sequence). -/
theorem calculateRange_bounds (measurements : List VirtualItem)
    (outerSize scrollOffset : Int) (lanes : Nat)
    (hne : 0 < measurements.length) (hout : 0 < outerSize) :
    0 ≤ (calculateRange measurements outerSize scrollOffset lanes).startIndex ∧
    (calculateRange measurements outerSize scrollOffset lanes).startIndex ≤
      (calculateRange measurements outerSize scrollOffset lanes).endIndex ∧
    (calculateRange measurements outerSize scrollOffset lanes).endIndex ≤
      (measurements.length : Int) - 1 := by
  by_cases h1 : measurements.length ≤ lanes
  · simp only [calculateRange, if_pos h1]
    omega
  · have hbsle : findNearestBinarySearch 0 ((measurements.length : Int) - 1)
        (fun index => (measurements.getD index ZERO_ITEM).start) scrollOffset ≤
        ((measurements.length : Int) - 1).toNat :=
      findNearestBinarySearch_le 0 _ _ _ (by omega)
    by_cases h2 : lanes = 1
    · subst h2
      simp only [calculateRange, if_neg h1, if_true]
      have hexp := expandEndSingle_bounds measurements
        (scrollOffset + outerSize)
        (((measurements.length : Int) - 1).toNat -
          findNearestBinarySearch 0 ((measurements.length : Int) - 1)
            (fun index => (measurements.getD index ZERO_ITEM).start)
            scrollOffset)
        (findNearestBinarySearch 0 ((measurements.length : Int) - 1)
          (fun index => (measurements.getD index ZERO_ITEM).start)
          scrollOffset)
      omega
    · by_cases h3 : 1 < lanes
      · simp only [calculateRange, if_neg h1, if_neg h2, if_pos h3]
        have hexp := expandEndMulti_bounds measurements
          (scrollOffset + outerSize)
          (((measurements.length : Int) - 1).toNat -
            findNearestBinarySearch 0 ((measurements.length : Int) - 1)
              (fun index => (measurements.getD index ZERO_ITEM).start)
              scrollOffset)
          (findNearestBinarySearch 0 ((measurements.length : Int) - 1)
            (fun index => (measurements.getD index ZERO_ITEM).start)
            scrollOffset)
          (List.replicate lanes 0)
        have hstb := expandStartMulti_bounds measurements scrollOffset
          ((findNearestBinarySearch 0 ((measurements.length : Int) - 1)
            (fun index => (measurements.getD index ZERO_ITEM).start)
            scrollOffset) + 1)
          ((findNearestBinarySearch 0 ((measurements.length : Int) - 1)
            (fun index => (measurements.getD index ZERO_ITEM).start)
            scrollOffset : Nat) : Int)
          (List.replicate lanes (scrollOffset + outerSize))
        set st := expandStartMulti measurements scrollOffset
          ((findNearestBinarySearch 0 ((measurements.length : Int) - 1)
            (fun index => (measurements.getD index ZERO_ITEM).start)
            scrollOffset) + 1)
          ((findNearestBinarySearch 0 ((measurements.length : Int) - 1)
            (fun index => (measurements.getD index ZERO_ITEM).start)
            scrollOffset : Nat) : Int)
          (List.replicate lanes (scrollOffset + outerSize)) with hstdef
        set e := expandEndMulti measurements (scrollOffset + outerSize)
          (((measurements.length : Int) - 1).toNat -
            findNearestBinarySearch 0 ((measurements.length : Int) - 1)
              (fun index => (measurements.getD index ZERO_ITEM).start)
              scrollOffset)
          (findNearestBinarySearch 0 ((measurements.length : Int) - 1)
            (fun index => (measurements.getD index ZERO_ITEM).start)
            scrollOffset)
          (List.replicate lanes 0) with hedef
        have hkend : 0 ≤ (lanes : Int) - 1 - Int.tmod (e : Int) (lanes : Int) := by
          rw [Int.tmod_eq_emod (by omega) (by omega)]
          have := Int.emod_lt_of_pos (e : Int)
            (show (0 : Int) < (lanes : Int) by omega)
          omega
        have hstart : max 0 (st - Int.tmod st (lanes : Int)) ≤ (e : Int) := by
          rcases le_or_lt 0 st with hpos | hneg
          · have ht := Int.tmod_nonneg (lanes : Int) hpos
            omega
          · have hstm1 : st = -1 := by omega
            rw [hstm1, tmod_neg_one lanes h3]
            omega
        omega
      · have h0 : ¬ (1 < lanes) := h3
        simp only [calculateRange, if_neg h1, if_neg h2, if_neg h0]
        omega

/-- Witness for C2: three items in a single lane, viewport 100, offset 60. -/
theorem calculateRange_bounds_witness :
    (0 ≤ (calculateRange
        [⟨0, 0, 0, 50, 50, 0⟩, ⟨1, 1, 50, 100, 50, 0⟩, ⟨2, 2, 100, 150, 50, 0⟩]
        100 60 1).startIndex ∧
      (calculateRange
        [⟨0, 0, 0, 50, 50, 0⟩, ⟨1, 1, 50, 100, 50, 0⟩, ⟨2, 2, 100, 150, 50, 0⟩]
        100 60 1).startIndex ≤
        (calculateRange
          [⟨0, 0, 0, 50, 50, 0⟩, ⟨1, 1, 50, 100, 50, 0⟩, ⟨2, 2, 100, 150, 50, 0⟩]
          100 60 1).endIndex ∧
      (calculateRange
        [⟨0, 0, 0, 50, 50, 0⟩, ⟨1, 1, 50, 100, 50, 0⟩, ⟨2, 2, 100, 150, 50, 0⟩]
        100 60 1).endIndex ≤
        (([⟨0, 0, 0, 50, 50, 0⟩, ⟨1, 1, 50, 100, 50, 0⟩,
           ⟨2, 2, 100, 150, 50, 0⟩] : List VirtualItem).length : Int) - 1) :=
  calculateRange_bounds
    [⟨0, 0, 0, 50, 50, 0⟩, ⟨1, 1, 50, 100, 50, 0⟩, ⟨2, 2, 100, 150, 50, 0⟩]
    100 60 1 (by decide) (by decide)

/-! ## C7: `getOffsetForIndex` with `align = 'auto'` -/

/-- The value `getSize()` returns on an enabled instance. -/
def viewSize (s : VState) : Int :=
  if s.opts.horizontal then (s.scrollRect.getD s.opts.initialRect).width
  else (s.scrollRect.getD s.opts.initialRect).height

/-- The value `getScrollOffset()` returns on an enabled instance. -/
def currentOffset (s : VState) : Int :=
  s.scrollOffset.getD s.opts.initialOffset

/-- `getSize`/`getScrollOffset` only replace a missing `scrollRect` /
`scrollOffset` by its initial value, so running them first does not change
the offset `getOffsetForAlignment` computes. -/
lemma getOffsetForAlignment_after_reads (s : VState) (toOffset : Int)
    (align : ScrollAlignment) (itemSize : Int)
    (hen : s.opts.enabled = true) :
    (getOffsetForAlignment
      { s with scrollRect := some (s.scrollRect.getD s.opts.initialRect),
               scrollOffset := some (s.scrollOffset.getD s.opts.initialOffset) }
      toOffset align itemSize).1 =
      (getOffsetForAlignment s toOffset align itemSize).1 := by
  unfold getOffsetForAlignment getSize getScrollOffset
  simp [hen]

/-- C7: with `align = 'auto'`, if the item lies strictly inside the viewport
shrunk by `scrollPaddingStart`/`scrollPaddingEnd`, `getOffsetForIndex`
returns the current scroll offset unchanged; otherwise it resolves the
alignment to `'end'` (end edge violated, checked first) or `'start'` (start
edge violated) and delegates the padded target to the alignment rule
`getOffsetForAlignment`. -/
theorem getOffsetForIndex_auto_spec (s : VState) (index : Int)
    (item : VirtualItem)
    (hen : s.opts.enabled = true)
    (hitem : s.measurementsCache.get?
      (max 0 (min index ((s.opts.count : Int) - 1))).toNat = some item) :
    (currentOffset s + s.opts.scrollPaddingStart < item.start →
      item.«end» < currentOffset s + viewSize s - s.opts.scrollPaddingEnd →
      (getOffsetForIndex s index ScrollAlignment.auto).1 =
        some (currentOffset s, ScrollAlignment.auto)) ∧
    (currentOffset s + viewSize s - s.opts.scrollPaddingEnd ≤ item.«end» →
      (getOffsetForIndex s index ScrollAlignment.auto).1 =
        some ((getOffsetForAlignment s (item.«end» + s.opts.scrollPaddingEnd)
          ScrollAlignment.«end» item.size).1, ScrollAlignment.«end»)) ∧
    (item.«end» < currentOffset s + viewSize s - s.opts.scrollPaddingEnd →
      item.start ≤ currentOffset s + s.opts.scrollPaddingStart →
      (getOffsetForIndex s index ScrollAlignment.auto).1 =
        some ((getOffsetForAlignment s (item.start - s.opts.scrollPaddingStart)
          ScrollAlignment.start item.size).1, ScrollAlignment.start)) := by
  unfold getOffsetForIndex
  simp only [hitem, getSize, getScrollOffset, hen, Bool.true_eq_false,
    if_false]
  refine ⟨?_, ?_, ?_⟩
  · intro h1 h2
    simp only [viewSize, currentOffset] at h1 h2 ⊢
    rw [if_pos trivial, if_neg (by omega), if_neg (by omega)]
  · intro h1
    simp only [viewSize, currentOffset] at h1 ⊢
    rw [if_pos trivial, if_pos h1]
    simp only [Option.some.injEq, Prod.mk.injEq]
    exact ⟨getOffsetForAlignment_after_reads s _ _ _ hen, trivial⟩
  · intro h1 h2
    simp only [viewSize, currentOffset] at h1 h2 ⊢
    rw [if_pos trivial, if_neg (by omega), if_pos h2]
    simp only [Option.some.injEq, Prod.mk.injEq]
    refine ⟨?_, trivial⟩
    exact getOffsetForAlignment_after_reads s _ _ _ hen

/-- Witness for C7: at `WSTATE` (offset 200, 100px viewport, paddings 4/6),
item 1 (`[230, 280)`) lies strictly inside the padded viewport
`[204, 294)`. -/
theorem getOffsetForIndex_auto_spec_witness :
    WSTATE.measurementsCache.get?
        (max 0 (min 1 ((WSTATE.opts.count : Int) - 1))).toNat =
      some ⟨1, 1, 230, 280, 50, 0⟩ ∧
    (currentOffset WSTATE + WSTATE.opts.scrollPaddingStart < 230 →
      (280 : Int) < currentOffset WSTATE + viewSize WSTATE -
        WSTATE.opts.scrollPaddingEnd →
      (getOffsetForIndex WSTATE 1 ScrollAlignment.auto).1 =
        some (currentOffset WSTATE, ScrollAlignment.auto)) :=
  ⟨by decide,
    fun h1 h2 => (getOffsetForIndex_auto_spec WSTATE 1 ⟨1, 1, 230, 280, 50, 0⟩
      rfl (by decide)).1 h1 h2⟩

end Virtual
